import Mathlib

/-!
Verification of the p0f SSL fingerprinting module (`src/fp_ssl.c`).

The C data structures and functions are shallowly embedded:

* `u32`-valued token arrays are END_MARKER-terminated in C; here a token
  sequence is a `List Nat` holding the tokens, the end of the list playing
  the role of the `END_MARKER` sentinel.
* Machine integers become `Nat` (with explicit masking where overflow or
  truncation matters) and `Int` for the signed `drift` field.
* Byte buffers become `List Nat`; functions whose C counterparts return
  `-1` on a parsing error return `Option` here.
-/

set_option autoImplicit false

namespace FpSsl

/-- Modelled from the spec: the constants `MATCH_MAYBE`, `MATCH_ANY` and
`END_MARKER` live in `fp_ssl.h`, which is not part of the sources given.
Per spec sections 3 and 9, sentinel markers and the optional-flag are packed
into the same 32-bit space as the real 24-bit field values, `Optional(v)`
being the value with a flag bit or-ed in.  The bit chosen for each is
arbitrary as long as the three are distinct and disjoint from the 24-bit
value range. -/
def MATCH_MAYBE : Nat := 0x1000000

/-- Modelled from the spec: the `*` wildcard sentinel (see `MATCH_MAYBE`). -/
def MATCH_ANY : Nat := 0x2000000

/-- Modelled from the spec: the terminator sentinel of a token array
(see `MATCH_MAYBE`).  Lists in this embedding end where the C array holds
`END_MARKER`, so the constant itself never occurs inside a list. -/
def END_MARKER : Nat := 0x4000000

/-- The u32 complement `~MATCH_MAYBE` used by `match_sigs` and `dump_sig`. -/
def NOT_MATCH_MAYBE : Nat := 0xFFFFFFFF ^^^ MATCH_MAYBE

/-- Modelled from the spec: SSL signature flag bits (`fp_ssl.h` is absent);
the spec only requires a bitset over {COMPR, V2, VER, TIME, STIME}. -/
def SSL_FLAG_COMPR : Nat := 0x1

/-- Modelled from the spec: see `SSL_FLAG_COMPR`. -/
def SSL_FLAG_V2 : Nat := 0x2

/-- Modelled from the spec: see `SSL_FLAG_COMPR`. -/
def SSL_FLAG_VER : Nat := 0x4

/-- Modelled from the spec: see `SSL_FLAG_COMPR`. -/
def SSL_FLAG_TIME : Nat := 0x8

/-- Modelled from the spec: see `SSL_FLAG_COMPR`. -/
def SSL_FLAG_STIME : Nat := 0x10

/-- Modelled from the spec: the TLS record content type for handshake
messages ("the handshake content-type code", spec 4.6); 22 on the wire. -/
def SSL3_REC_HANDSHAKE : Nat := 0x16

/-- Modelled from the spec: the ClientHello handshake message type
("the ClientHello handshake-message type code", spec 4.6); 1 on the wire. -/
def SSL3_MSG_CLIENT_HELLO : Nat := 0x01

/-- Modelled from the spec: maximum retained per-flow buffer size
(`MAX_FLOW_DATA`, from the absent `config.h`); only `req_len <
MAX_FLOW_DATA` is observable here, the concrete bound is not exercised by
any claim. -/
def MAX_FLOW_DATA : Nat := 8192

/-- Read byte `i` of a buffer.  All reads performed by the embedded code are
in bounds whenever the C code's reads are; the default 0 is never observable
on those paths. -/
def byteAt (l : List Nat) (i : Nat) : Nat := l.getD i 0

/-- Big-endian 16-bit read at offset `i`, as in `(pay[i] << 8) | pay[i+1]`. -/
def be16 (l : List Nat) (i : Nat) : Nat := (byteAt l i <<< 8) ||| byteAt l (i + 1)

/-! ### Pattern matcher (`match_sigs`, fp_ssl.c lines 134-206) -/

/-- The inner scan of rule 3 of `match_sigs` (lines 159-165): look forward in
`sig` for the first value equal to `v`; on success return the remainder of
`sig` just after that value. -/
def scanMaybe (v : Nat) : List Nat → Option (List Nat)
  | [] => none
  | s :: sg => if v = s then some sg else scanMaybe v sg

/-- The inner scan of rule 4 of `match_sigs` (lines 173-178): advance `sig`
until the value `v` is found and consume it; if it is absent the whole of
`sig` is consumed (`sig` ends at `END_MARKER`). -/
def scanAny (v : Nat) : List Nat → List Nat
  | [] => []
  | s :: sg => if v = s then sg else scanAny v sg

/-- The main loop of `match_sigs` (lines 141-204), `match_any` threaded as an
explicit argument.  The first argument is the reference record (`rec` in C,
stars and question marks allowed), the second the exact observed signature.
When either list is exhausted, the trailing `MATCH_MAYBE`/`MATCH_ANY`
entries of the record are skipped and the two final success checks run. -/
def match_sigs_loop : List Nat → List Nat → Bool → Nat
  | r :: rc, s :: sg, match_any =>
    if r &&& NOT_MATCH_MAYBE = s then
      -- 1. Exact match, move on
      match_sigs_loop rc sg false
    else if r = MATCH_ANY then
      -- 2. Star, may match anything
      match_sigs_loop rc (s :: sg) true
    else if r &&& MATCH_MAYBE ≠ 0 then
      -- 3. Optional match, not yet fulfilled
      if match_any then
        match scanMaybe (r &&& NOT_MATCH_MAYBE) (s :: sg) with
        | some sg' => match_sigs_loop rc sg' false
        | none => match_sigs_loop rc (s :: sg) true
      else
        match_sigs_loop rc (s :: sg) false
    else if match_any then
      -- 4. Looking for an exact match after MATCH_ANY
      match_sigs_loop rc (scanAny r (s :: sg)) false
    else
      -- 5. Nope, not matched.
      1
  | rc, sg, match_any =>
    let rc' := rc.dropWhile (fun r => r &&& MATCH_MAYBE ≠ 0 || r = MATCH_ANY)
    if rc' = [] ∧ sg = [] then 0
    else if rc' = [] ∧ match_any then 0
    else 1

/-- `match_sigs` (fp_ssl.c line 134): 0 when the record matches the
signature, 1 otherwise. -/
def match_sigs (rc sg : List Nat) : Nat := match_sigs_loop rc sg false

/-! ### PatternToken codec, decoding side
(`decode_hex_string`, fp_ssl.c lines 64-127) -/

/-- Lowercase hex digit, exactly the characters of the C switch cases
`'a' ... 'f'` and `'0' ... '9'` (line 90-91). -/
def isHexDigLower (c : Char) : Bool :=
  (48 ≤ c.toNat && c.toNat ≤ 57) || (97 ≤ c.toNat && c.toNat ≤ 102)

/-- Value of a hex digit as accepted by `strtol(..., 16)`: both cases. -/
def hexDigitVal (c : Char) : Option Nat :=
  if 48 ≤ c.toNat ∧ c.toNat ≤ 57 then some (c.toNat - 48)
  else if 97 ≤ c.toNat ∧ c.toNat ≤ 102 then some (c.toNat - 87)
  else if 65 ≤ c.toNat ∧ c.toNat ≤ 70 then some (c.toNat - 55)
  else none

/-- Greedy hex-digit accumulation of `strtol`, returning the value and the
unconsumed remainder. -/
def takeHex : List Char → Nat → Nat × List Char
  | c :: tl, acc =>
    match hexDigitVal c with
    | some d => takeHex tl (acc * 16 + d)
    | none => (acc, c :: tl)
  | [], acc => (acc, [])

/-- Embedding of the libc call `strtol(val, &val, 16)` as used on line 93:
an optional `0x`/`0X` prefix (only when followed by a hex digit), then
greedy hex digits, the result saturating at `LONG_MAX` on overflow.  The
whitespace and sign prefixes accepted by `strtol` are not modelled: no
call site in `fp_ssl.c` can reach them from a string of the database
grammar, and every claim about the decoder is about such strings. -/
def strtol_parsed (s : List Char) : Nat × List Char :=
  match s with
  | c0 :: c1 :: tl =>
    if c0 = '0' ∧ (c1 = 'x' ∨ c1 = 'X') ∧ (hexDigitVal (tl.headD ' ')).isSome then
      takeHex tl 0
    else
      takeHex (c0 :: c1 :: tl) 0
  | _ => takeHex s 0

/-- The final result of the `strtol` embedding: the accumulated value of
`strtol_parsed`, saturated at `LONG_MAX`, plus the end pointer. -/
def strtol_hex16 (s : List Char) : Nat × List Char :=
  (min (strtol_parsed s).1 0x7FFFFFFFFFFFFFFF, (strtol_parsed s).2)

/-- Result of `decode_hex_string`: `ok` carries the decoded tokens and the
remaining input (the C function stores the tokens in a fresh END_MARKER
terminated array and leaves `*val_ptr` at the terminator character);
`fail` is the `return NULL` paths; `fatal` is the `FATAL(...)` abort taken
when more than 128 tokens appear (line 125). -/
inductive DecodeResult where
  | ok (toks : List Nat) (rest : List Char)
  | fail
  | fatal
deriving DecidableEq

/-- State #1 of the `decode_hex_string` loop (lines 77-100): parse a single
token.  Returns the annotated u32 value and the remaining input, or `none`
for the `return NULL` cases (no progress by `strtol`, or an unexpected
character). -/
def decode_hex_value : List Char → Option (Nat × List Char)
  | c :: tl =>
    if c = '*' then some (MATCH_ANY, tl)
    else if c = '?' then
      let vr := strtol_hex16 tl
      if vr.2.length = tl.length then none
      else some ((vr.1 &&& 0xFFFFFF) ||| MATCH_MAYBE, vr.2)
    else if isHexDigLower c then
      let vr := strtol_hex16 (c :: tl)
      if vr.2.length = (c :: tl).length then none
      else some (vr.1 &&& 0xFFFFFF, vr.2)
    else none
  | [] => none

/-- The loop of `decode_hex_string` (lines 71-123); the token counter
`u8 p` of the C code is represented downward as the number `left` of loop
iterations still permitted (`p = 128 - left`), `rc` is the accumulated
`rec[]` prefix.  One iteration parses a token (state #1) and then
dispatches on the separator (state #2): end of string or `':'` succeed,
`','` continues, anything else fails.  When the counter is exhausted with
input remaining, the C code leaves the `while (p < 128)` loop and aborts
with `FATAL`. -/
def decode_hex_loop : Nat → List Char → List Nat → DecodeResult
  | 0, _, _ => .fatal
  | left + 1, val, rc =>
    match decode_hex_value val with
    | none => .fail
    | some (v, r) =>
      match r with
      | [] => .ok (rc ++ [v]) []
      | c :: tl =>
        if c = ':' then .ok (rc ++ [v]) (c :: tl)
        else if c = ',' then decode_hex_loop left tl (rc ++ [v])
        else .fail

/-- `decode_hex_string` (fp_ssl.c line 64): decode a string of comma
separated hex numbers into an annotated u32 array, stopping at `'\0'` or
`':'`. -/
def decode_hex_string (val : List Char) : DecodeResult :=
  decode_hex_loop 128 val []

/-! ### Signatures and the signature database
(`struct ssl_sig`, `struct ssl_sig_record`, `ssl_find_match`) -/

/-- `struct ssl_sig` (from `fp_ssl.h`, reconstructed from its uses in
`fp_ssl.c` and spec section 3).  The `matched` back-pointer of the C struct
is not a field here; `ssl_find_match` returns the matched record instead of
storing it. -/
structure SslSig where
  request_version : Nat
  remote_time : Nat
  drift : Int
  cipher_suites : List Nat
  extensions : List Nat
  flags : Nat
deriving DecidableEq

/-- `struct ssl_sig_record` (spec section 3: classification kind, name,
flavor, label, systems, source line, generic flag, plus the reference
signature). -/
structure SslSigRecord where
  class_id : Int
  name_id : Nat
  flavor : Option String
  label_id : Nat
  sys : List Nat
  line_no : Nat
  generic : Bool
  sig : SslSig
deriving DecidableEq

/-- The per-record candidate test of `ssl_find_match` (fp_ssl.c lines
219-229): SSL version and flags must match exactly, then extensions and
cipher suites must pattern-match. -/
def candidate_match (rs ts : SslSig) : Bool :=
  rs.request_version = ts.request_version ∧
  ts.flags = rs.flags ∧
  match_sigs rs.extensions ts.extensions = 0 ∧
  match_sigs rs.cipher_suites ts.cipher_suites = 0

/-- `ssl_find_match` (fp_ssl.c line 210): linear scan of the signature list
in registration order (`ssl_register_sig` appends, line 694), returning the
first matching record.  The C code stores it in `ts->matched`, which stays
NULL when nothing matches; here that assignment is the `Option` result. -/
def ssl_find_match : List SslSigRecord → SslSig → Option SslSigRecord
  | [], _ => none
  | ref :: rest, ts =>
    if candidate_match ref.sig ts then some ref else ssl_find_match rest ts

/-! ### SSLv2 dissector (`fingerprint_ssl_v2`, fp_ssl.c lines 242-327)

`struct ssl2_hdr` is in the absent `fp_ssl.h`; its layout is modelled from
the spec (section 4.4: "major/minor version, cipher-spec length, session-id
length, challenge length (all fields fixed offsets, lengths are big-endian
16-bit)", and section 4.6 step 4, which places the SSLv2 message type at
byte 3 and the version bytes major-then-minor after it).  So: `msg_length`
at offsets 0-1, `msg_type` at 2, `ver_maj` at 3, `ver_min` at 4,
`cipher_spec_length` at 5-6, `session_id_length` at 7-8,
`challenge_length` at 9-10; `sizeof(struct ssl2_hdr) = 11`. -/

/-- Consecutive big-endian 24-bit reads, the cipher extraction loop of
`fingerprint_ssl_v2` (lines 281-287). -/
def read24List : List Nat → List Nat
  | b0 :: b1 :: b2 :: rest => ((b0 <<< 16) ||| (b1 <<< 8) ||| b2) :: read24List rest
  | _ => []

/-- Consecutive big-endian 16-bit reads, the cipher extraction loop of
`fingerprint_ssl_v3` (lines 452-457). -/
def read16List : List Nat → List Nat
  | b0 :: b1 :: rest => ((b0 <<< 8) ||| b1) :: read16List rest
  | _ => []

/-- `fingerprint_ssl_v2` (fp_ssl.c line 242).  `sig` is the signature being
filled in (the caller has zeroed it and set `SSL_FLAG_V2`); `pay` is the
payload buffer of `pay_len = pay.length` bytes.  `none` is the C `-1`
return.  The session-id/challenge trailer is only skipped over — both the
truncated and the complete trailer path set empty extensions and succeed —
so the embedded result does not depend on it; the C code's diagnostics on
lines 294-308 have no observable effect. -/
def fingerprint_ssl_v2 (sig : SslSig) (pay : List Nat) : Option SslSig :=
  if 11 > pay.length then none
  else
    let ver_maj := byteAt pay 3
    let ver_min := byteAt pay 4
    let request_version :=
      if ver_min = 2 ∧ ver_maj = 0 then 0x0200
      else (ver_maj <<< 8) ||| ver_min
    let cipher_spec_len := be16 pay 5
    if cipher_spec_len % 3 ≠ 0 then none
    else if 11 + cipher_spec_len > pay.length then none
    else
      let cipher_suites := read24List ((pay.drop 11).take cipher_spec_len)
      some { sig with
               request_version := request_version,
               cipher_suites := cipher_suites,
               extensions := [] }

/-! ### SSLv3/TLS dissector (`fingerprint_ssl_v3`, fp_ssl.c lines 333-558)

`struct ssl3_message_hdr` (absent `fp_ssl.h`) is modelled from the spec
(section 4.5: "a handshake-message header (message type + 24-bit length)"):
`message_type` at fragment offset 0, the big-endian 24-bit `length` at
offsets 1-3, `sizeof = 4`. -/

/-- Reinterpret a u32 bit pattern as the signed `s32` it denotes. -/
def s32_of_u32 (n : Nat) : Int :=
  if n % 4294967296 < 2147483648 then (n % 4294967296 : Int)
  else (n % 4294967296 : Int) - 4294967296

/-- The u32 subtraction `local_time - sig->remote_time` stored into the
signed `drift` field (fp_ssl.c line 394). -/
def u32_sub (a b : Nat) : Int :=
  s32_of_u32 (a % 4294967296 + (4294967296 - b % 4294967296))

/-- The extension walk of `fingerprint_ssl_v3` (lines 490-506) over the
declared extension region: while at least 4 bytes remain, read the 2-byte
type and 2-byte length, skip the declared payload, and record the type; the
type of an extension whose declared payload overruns the region is still
recorded (the sanity check `pay > tmp_end` runs after the append). -/
def ssl3_ext_loop_go : Nat → List Nat → List Nat
  | fuel + 1, b0 :: b1 :: b2 :: b3 :: rest =>
    let ext_type := (b0 <<< 8) ||| b1
    let ext_len := (b2 <<< 8) ||| b3
    ext_type ::
      (if ext_len ≤ rest.length then ssl3_ext_loop_go fuel (rest.drop ext_len) else [])
  | _, _ => []

/-- The extension walk, entered with enough `fuel` for every iteration (each
iteration consumes at least four bytes of the region, so `region.length`
iterations are never reached; `ssl3_ext_loop_go_fuel` proves the counter
value is irrelevant as long as it is at least `region.length`). -/
def ssl3_ext_loop (region : List Nat) : List Nat :=
  ssl3_ext_loop_go region.length region

/-- The declared 24-bit handshake-message length of an SSLv3 fragment
(`msg->length`, fp_ssl.c lines 340-342). -/
def sslv3_msg_len (fragment : List Nat) : Nat :=
  (byteAt fragment 1 <<< 16) ||| (byteAt fragment 2 <<< 8) ||| byteAt fragment 3

/-- The ClientHello message payload of an SSLv3 fragment (`pay` of
fp_ssl.c line 344, of declared length `msg_len`). -/
def sslv3_body (fragment : List Nat) : List Nat :=
  (fragment.drop 4).take (sslv3_msg_len fragment)

/-- The signature fields `fingerprint_ssl_v3` has determined once the
cipher-suite list is parsed (fp_ssl.c lines 384-458): protocol version (and
the VER flag when it differs from the record version), remote time and
drift (with the STIME/TIME heuristics of lines 396-409), and the extracted
cipher suites; extensions still empty.  `off2` is the offset of the
cipher-suite list inside `body`, `csl` its declared byte length. -/
def sslv3_base_sig (sig : SslSig) (body : List Nat)
    (record_version local_time off2 csl : Nat) : SslSig :=
  let request_version := be16 body 0
  let flags1 :=
    if request_version ≠ record_version then sig.flags ||| SSL_FLAG_VER else sig.flags
  let remote_time :=
    (byteAt body 2 <<< 24) ||| (byteAt body 3 <<< 16) ||| (byteAt body 4 <<< 8) ||| byteAt body 5
  let drift := u32_sub local_time remote_time
  let flags2 :=
    if remote_time < 1 * 365 * 24 * 60 * 60 then flags1 ||| SSL_FLAG_STIME
    else if drift.natAbs > 5 * 365 * 24 * 60 * 60 then flags1 ||| SSL_FLAG_TIME
    else flags1
  { sig with request_version, remote_time, drift,
             cipher_suites := read16List ((body.drop off2).take csl),
             extensions := [], flags := flags2 }

/-- The COMPR flag test of `fingerprint_ssl_v3` (lines 469-477): set when
compression method 1 (DEFLATE) occurs in the compression-methods list. -/
def sslv3_compr_flags (flags : Nat) (body : List Nat) (off4 cml : Nat) : Nat :=
  if ((body.drop off4).take cml).any (fun b => b = 1) then flags ||| SSL_FLAG_COMPR
  else flags

/-- `fingerprint_ssl_v3` (fp_ssl.c line 333).  `fragment` is the record
fragment of `frag_len = fragment.length` bytes; `none` is the C `-1`
return.  Offsets are tracked relative to `body`, the ClientHello message
payload (`pay` in C), whose length equals the declared `msg_len`, so the C
bound checks `pay + k > pay_end` become `off + k > msg_len`.  The
diagnostics-only random-blob scan (lines 412-423) and the trailing-bytes
messages (lines 514-533) have no observable effect and are omitted. -/
def fingerprint_ssl_v3 (sig : SslSig) (fragment : List Nat)
    (record_version : Nat) (local_time : Nat) : Option SslSig :=
  let message_type := byteAt fragment 0
  let msg_len := sslv3_msg_len fragment
  -- Record size goes beyond current fragment: unsupported coalescing.
  if 4 + msg_len > fragment.length then none
  else if message_type ≠ SSL3_MSG_CLIENT_HELLO then none
  else
    let body := sslv3_body fragment
    -- Header (34B) + session_id_len (1B)
    if 2 + 4 + 28 + 1 > msg_len then none
    else
      let session_id_len := byteAt body 34
      if 35 + session_id_len + 2 > msg_len then none
      else
        let cipher_suites_len := be16 body (35 + session_id_len)
        let off2 := 35 + session_id_len + 2
        if cipher_suites_len % 2 ≠ 0 then none
        else if off2 + cipher_suites_len > msg_len then none
        else
          let base := sslv3_base_sig sig body record_version local_time off2 cipher_suites_len
          let off3 := off2 + cipher_suites_len
          if off3 + 1 > msg_len then some base
          else
            let compression_methods_len := byteAt body off3
            let off4 := off3 + 1
            if off4 + compression_methods_len > msg_len then some base
            else
              let flags3 := sslv3_compr_flags base.flags body off4 compression_methods_len
              let off5 := off4 + compression_methods_len
              if off5 + 2 > msg_len then some { base with flags := flags3 }
              else
                let extensions_len := be16 body off5
                let off6 := off5 + 2
                if off6 + extensions_len > msg_len then some { base with flags := flags3 }
                else
                  some { base with
                           flags := flags3,
                           extensions := ssl3_ext_loop ((body.drop off6).take extensions_len) }

/-- A zeroed `struct ssl_sig`, as produced by `memset(&sig, 0, ...)`. -/
def zeroSig : SslSig :=
  { request_version := 0, remote_time := 0, drift := 0,
    cipher_suites := [], extensions := [], flags := 0 }

/-! ### Signature rendering (`dump_sig`, fp_ssl.c lines 564-619)

The C function builds a NUL-terminated byte string with `snprintf`; here it
builds a `List Char`. -/

/-- Character of one hex digit, as produced by `printf("%x", ...)`. -/
def hexChar (k : Nat) : Char :=
  Char.ofNat (if k < 10 then 48 + k else 87 + k)

/-- Accumulating worker for `hexChars`, most significant digit first.  The
first argument only bounds the number of iterations (the digit count of `n`
never exceeds `n` itself for positive `n`), keeping the recursion
structural. -/
def hexCharsGo : Nat → Nat → List Char → List Char
  | 0, _, acc => acc
  | fuel + 1, n, acc =>
    if n = 0 then acc else hexCharsGo fuel (n / 16) (hexChar (n % 16) :: acc)

/-- Digits of `printf("%x", n)` (lowercase, no padding, `0` for zero). -/
def hexChars (n : Nat) : List Char :=
  if n = 0 then ['0'] else hexCharsGo n n []

/-- Accumulating worker for `decChars`; fuel as in `hexCharsGo`. -/
def decCharsGo : Nat → Nat → List Char → List Char
  | 0, _, acc => acc
  | fuel + 1, n, acc =>
    if n = 0 then acc else decCharsGo fuel (n / 10) (Char.ofNat (48 + n % 10) :: acc)

/-- Digits of `printf("%i", n)` for the non-negative values rendered by
`dump_sig` (version bytes and `abs(drift)`). -/
def decChars (n : Nat) : List Char :=
  if n = 0 then ['0'] else decCharsGo n n []

/-- Comma separation as produced by the `(i ? "," : "")` idiom of the
`dump_sig` loops. -/
def joinComma : List (List Char) → List Char
  | [] => []
  | [t] => t
  | t :: ts => t ++ ',' :: joinComma ts

/-- One cipher token as rendered by `dump_sig` (lines 581-590): `*` for
`MATCH_ANY`, otherwise an optional `?` (when the `MATCH_MAYBE` annotation is
set) followed by the hex value with the annotation masked off. -/
def render_cipher_tok (c : Nat) : List Char :=
  if c ≠ MATCH_ANY then
    (if c &&& MATCH_MAYBE ≠ 0 then ['?'] else []) ++ hexChars (c &&& NOT_MATCH_MAYBE)
  else ['*']

/-- One extension token as rendered by `dump_sig` (lines 594-603): as
`render_cipher_tok`, except that the `?` prefix is also emitted when the
extension value is exactly 0. -/
def render_ext_tok (ext : Nat) : List Char :=
  if ext ≠ MATCH_ANY then
    (if ext &&& MATCH_MAYBE ≠ 0 ∨ ext = 0 then ['?'] else []) ++
      hexChars (ext &&& NOT_MATCH_MAYBE)
  else ['*']

/-- The cipher-suite field of `dump_sig`'s output. -/
def dump_ciphers (l : List Nat) : List Char := joinComma (l.map render_cipher_tok)

/-- The extension field of `dump_sig`'s output. -/
def dump_extensions (l : List Nat) : List Char := joinComma (l.map render_ext_tok)

/-- The flag table `flags[]` (fp_ssl.c lines 43-48), in order. -/
def flag_table : List (List Char × Nat) :=
  [("compr".toList, SSL_FLAG_COMPR),
   ("v2".toList, SSL_FLAG_V2),
   ("ver".toList, SSL_FLAG_VER),
   ("time".toList, SSL_FLAG_TIME),
   ("stime".toList, SSL_FLAG_STIME)]

/-- The flag field of `dump_sig`'s output (lines 607-615). -/
def dump_flags (fl : Nat) : List Char :=
  joinComma ((flag_table.filter (fun fv => fl &&& fv.2 ≠ 0)).map (·.1))

/-- `dump_sig` (fp_ssl.c line 564): canonical text
`<maj>.<min>:<ciphers>:<extensions>:<flags>` of a signature. -/
def dump_sig (sig : SslSig) : List Char :=
  decChars (sig.request_version >>> 8) ++ '.' :: decChars (sig.request_version &&& 0xFF) ++
    ':' :: dump_ciphers sig.cipher_suites ++
    ':' :: dump_extensions sig.extensions ++
    ':' :: dump_flags sig.flags

/-! ### Fingerprint engine (`fingerprint_ssl`, `process_ssl`,
fp_ssl.c lines 700-846)

`struct ssl3_record_hdr` (absent `fp_ssl.h`) is modelled from the spec
(section 4.6 step 4): `content_type` at offset 0, `ver_maj` at 1, `ver_min`
at 2, big-endian 16-bit `length` at 3-4; `sizeof = 5`. -/

/-- Observable actions of `process_ssl`: invocation of a dissector, and the
classification event emitted through the observation collaborator
(`start_observation`/`OBSERVF`/`add_observation_field`).  The `observe`
event carries: the matched record's kind (`true` for "app", i.e. negative
`class_id`), name id and flavor (`none` when nothing matched); the rendered
`match_sig` text (`none` when nothing matched); the `drift` field (`none`
when the TIME or STIME flag is set); and the rendered `raw_sig` text. -/
inductive SslEvent where
  | dissectV2 (pay : List Nat)
  | dissectV3 (fragment : List Nat) (record_version : Nat) (local_time : Nat)
  | observe (kind : Option (Bool × Nat × Option String))
      (match_sig : Option (List Char)) (drift : Option Nat) (raw_sig : List Char)
deriving DecidableEq

/-- The part of `struct packet_flow` (and `f->client`) that `process_ssl`
consumes: the classification state `in_ssl` (0 undetermined, 1 confirmed
SSL, -1 confirmed not SSL), the buffered client request bytes (`request`
with `req_len = request.length`), and `client->last_seen`. -/
structure PacketFlow where
  in_ssl : Int
  request : List Nat
  last_seen : Nat
deriving DecidableEq

/-- `fingerprint_ssl` (fp_ssl.c line 700): look the observed signature up in
the database and emit the classification event.  The database list stands
for the global `signatures` array, in registration order. -/
def fingerprint_ssl (to_srv : Bool) (db : List SslSigRecord) (sig : SslSig) : SslEvent :=
  let matched := if to_srv then ssl_find_match db sig else none
  .observe
    (matched.map fun m => (decide (m.class_id < 0), m.name_id, m.flavor))
    (matched.map fun m => dump_sig m.sig)
    (if sig.flags &&& (SSL_FLAG_TIME ||| SSL_FLAG_STIME) = 0 then some sig.drift.natAbs
     else none)
    (dump_sig sig)

/-- `process_ssl` (fp_ssl.c line 740): per-flow orchestration.  Returns the
C result (1 when more data is needed and can plausibly be read, else 0),
the updated flow, and the list of observable actions in order. -/
def process_ssl (db : List SslSigRecord) (to_srv : Bool) (f : PacketFlow) :
    Nat × PacketFlow × List SslEvent :=
  -- Already decided this flow?
  if f.in_ssl ≠ 0 then (0, f, [])
  -- Tracking requests only.
  else if ¬ to_srv then (0, f, [])
  else
    let can_get_more : Nat := if f.request.length < MAX_FLOW_DATA then 1 else 0
    if f.request.length < 6 then (can_get_more, f, [])
    else
      let msg_length := be16 f.request 0
      let fragment_len := be16 f.request 3
      -- Top bytes of SSLv2 CLIENT-HELLO?
      if (msg_length &&& 0x8000 ≠ 0) ∧ (msg_length &&& 0x7FFF ≥ 11 - 2) ∧
          byteAt f.request 2 = 1 ∧
          ((byteAt f.request 3 = 3 ∧ byteAt f.request 4 < 4) ∨
           (byteAt f.request 4 = 2 ∧ byteAt f.request 3 = 0)) then
        let msg_length2 := msg_length &&& 0x7FFF
        if f.request.length < 2 + msg_length2 then (can_get_more, f, [])
        else
          let pay := f.request.take (msg_length2 + 2)
          match fingerprint_ssl_v2 { zeroSig with flags := SSL_FLAG_V2 } pay with
          | some sig =>
            (0, { f with in_ssl := 1 },
             [.dissectV2 pay, fingerprint_ssl to_srv db sig])
          | none => (0, { f with in_ssl := -1 }, [.dissectV2 pay])
      -- Top bytes of SSLv3/TLS header?
      else if byteAt f.request 0 = SSL3_REC_HANDSHAKE ∧
          byteAt f.request 1 = 3 ∧ byteAt f.request 2 < 4 ∧
          fragment_len > 3 ∧ fragment_len < 16384 ∧
          byteAt f.request 5 = SSL3_MSG_CLIENT_HELLO then
        if f.request.length < 5 + fragment_len then (can_get_more, f, [])
        else
          let record_version := (byteAt f.request 1 <<< 8) ||| byteAt f.request 2
          let fragment := (f.request.drop 5).take fragment_len
          match fingerprint_ssl_v3 zeroSig fragment record_version f.last_seen with
          | some sig =>
            (0, { f with in_ssl := 1 },
             [.dissectV3 fragment record_version f.last_seen,
              fingerprint_ssl to_srv db sig])
          | none =>
            (0, { f with in_ssl := -1 },
             [.dissectV3 fragment record_version f.last_seen])
      else
        -- Does not look like SSLv2 nor SSLv3.
        (0, { f with in_ssl := -1 }, [])

/-! ### Specification-side definitions

These follow the wording of the spec, not the C code, and are only used on
the right-hand side of refinement statements comparing them with the
embedded code. -/

/-- Worker for `specExtWalk`; the counter argument keeps the recursion
structural and is irrelevant as long as it is at least `region.length`. -/
def specExtWalkGo : Nat → List Nat → List Nat
  | fuel + 1, t0 :: t1 :: l0 :: l1 :: rest =>
    (t0 * 256 + t1) ::
      (if l0 * 256 + l1 ≤ rest.length then specExtWalkGo fuel (rest.drop (l0 * 256 + l1))
       else [])
  | _, _ => []

/-- The extension types "read before the truncation point, in order"
(spec sections 4.5 and 8), stated directly on the declared extension
region: repeatedly read a 2-byte type and a 2-byte length, record the type,
and skip the payload; a length mismatch stops collection. -/
def specExtWalk (region : List Nat) : List Nat :=
  specExtWalkGo region.length region

/-- The extension sequence the spec promises for a ClientHello body after
the cipher-suite list (spec section 4.5): skip the 1-byte-length-prefixed
compression-methods list, read the 2-byte extension-list length, and walk
the declared region; any truncation along the way yields the empty
sequence. -/
def specExtensionsAfterCiphers (rest : List Nat) : List Nat :=
  match rest with
  | cml :: rest1 =>
    if cml ≤ rest1.length then
      match rest1.drop cml with
      | e0 :: e1 :: rest3 =>
        if e0 * 256 + e1 ≤ rest3.length then specExtWalk (rest3.take (e0 * 256 + e1))
        else []
      | _ => []
    else []
  | [] => []

/-- A grammatically well-formed token of the database grammar (spec section
6): `*`, or an optional `?` followed by one or more hex digits (lowercase,
as the decoder's switch accepts). -/
def wfToken : List Char → Bool
  | [] => false
  | c :: d =>
    if c = '*' then d.isEmpty
    else if c = '?' then ¬ d.isEmpty && d.all isHexDigLower
    else isHexDigLower c && d.all isHexDigLower

/-- The annotated u32 value a well-formed token denotes: `*` is the
wildcard sentinel, `?`-prefixed hex is the value (masked to 24 bits) with
the `MATCH_MAYBE` annotation, plain hex is the masked value. -/
def tokVal : List Char → Nat
  | [] => 0
  | c :: d =>
    if c = '*' then MATCH_ANY
    else if c = '?' then ((strtol_hex16 d).1 &&& 0xFFFFFF) ||| MATCH_MAYBE
    else (strtol_hex16 (c :: d)).1 &&& 0xFFFFFF

/-- A concrete SSLv3 ClientHello fragment used as a test vector: well
formed through the cipher-suite list (version 3.3, zero time and random,
empty session id, one cipher suite 0x002F, one compression method), with a
declared 8-byte extension list whose single extension claims a 16-byte
payload that is not present — a length inconsistency inside the extension
list. -/
def truncFrag : List Nat :=
  [0x01, 0x00, 0x00, 0x33,
   0x03, 0x03, 0x00, 0x00, 0x00, 0x00,
   0x00, 0x00, 0x00, 0x00, 0x00, 0x00, 0x00, 0x00, 0x00, 0x00,
   0x00, 0x00, 0x00, 0x00, 0x00, 0x00, 0x00, 0x00, 0x00, 0x00,
   0x00, 0x00, 0x00, 0x00, 0x00, 0x00, 0x00, 0x00,
   0x00,
   0x00, 0x02, 0x00, 0x2F,
   0x01, 0x00,
   0x00, 0x08,
   0x00, 0x0A, 0x00, 0x10, 0xAA, 0xBB, 0xCC, 0xDD]

/-! ### Helper lemmas about token encodings -/

/-- An exact (24-bit) token is unchanged by masking off `MATCH_MAYBE`. -/
theorem exact_and_not_maybe {t : Nat} (h : t < 0x1000000) :
    t &&& NOT_MATCH_MAYBE = t := by
  have h1 : t &&& 0xFFFFFF = t := by
    have := Nat.and_pow_two_sub_one_of_lt_two_pow (n := 24) (x := t) (by norm_num; omega)
    norm_num at this ⊢
    omega
  calc t &&& NOT_MATCH_MAYBE = (t &&& 0xFFFFFF) &&& NOT_MATCH_MAYBE := by rw [h1]
    _ = t &&& (0xFFFFFF &&& NOT_MATCH_MAYBE) := Nat.and_assoc ..
    _ = t &&& 0xFFFFFF := by congr 1
    _ = t := h1

/-- An exact (24-bit) token does not carry the `MATCH_MAYBE` annotation. -/
theorem exact_and_maybe {t : Nat} (h : t < 0x1000000) : t &&& MATCH_MAYBE = 0 := by
  have hb : t.testBit 24 = false := Nat.testBit_lt_two_pow (by norm_num; omega)
  have : MATCH_MAYBE = 2 ^ 24 := by norm_num [MATCH_MAYBE]
  rw [this, Nat.and_two_pow, hb]
  rfl

/-- An exact (24-bit) token is not the wildcard sentinel. -/
theorem exact_ne_any {t : Nat} (h : t < 0x1000000) : t ≠ MATCH_ANY := by
  intro he
  rw [he] at h
  norm_num [MATCH_ANY] at h

/-- Masking `MATCH_MAYBE` off an annotated optional token recovers its
24-bit value. -/
theorem maybe_and_not_maybe {w : Nat} (h : w < 0x1000000) :
    (w ||| MATCH_MAYBE) &&& NOT_MATCH_MAYBE = w := by
  rw [Nat.and_comm, Nat.and_or_distrib_left, Nat.and_comm NOT_MATCH_MAYBE w,
    exact_and_not_maybe h]
  have : NOT_MATCH_MAYBE &&& MATCH_MAYBE = 0 := by decide
  rw [this, Nat.or_zero]

/-- An annotated optional token is not the wildcard sentinel. -/
theorem maybe_ne_any {w : Nat} : w ||| MATCH_MAYBE ≠ MATCH_ANY := by
  intro he
  have := congrArg (Nat.testBit · 24) he
  simp only [Nat.testBit_or] at this
  have hm : Nat.testBit MATCH_MAYBE 24 = true := by decide
  have ha : Nat.testBit MATCH_ANY 24 = false := by decide
  rw [hm, ha, Bool.or_true] at this
  exact Bool.noConfusion this

/-- An annotated optional token carries the `MATCH_MAYBE` annotation. -/
theorem maybe_and_maybe {w : Nat} : (w ||| MATCH_MAYBE) &&& MATCH_MAYBE ≠ 0 := by
  intro he
  have := congrArg (Nat.testBit · 24) he
  simp only [Nat.testBit_and, Nat.testBit_or, Nat.zero_testBit] at this
  have hm : Nat.testBit MATCH_MAYBE 24 = true := by decide
  rw [hm, Bool.or_true, Bool.true_and] at this
  exact Bool.noConfusion this

/-! ### C1 -/

/-- C1, counterexample: the Pattern Matcher applied to reference
`[Exact(1), Wildcard, Exact(2)]` and observed `[1, 2, 3, 2]` does NOT
return a successful match (`match_sigs` returns 0 on success). -/
theorem match_sigs_star_example_counterexample :
    ¬ match_sigs [1, MATCH_ANY, 2] [1, 2, 3, 2] = 0 := by decide

/-- C1, amended: the Pattern Matcher applied to reference
`[Exact(1), Wildcard, Exact(2)]` and observed `[1, 2, 3, 2]` returns a
failed match: `Exact(2)` matches the first observed `2` by the
exact-match rule, clearing the pending wildcard, and the observed tail
`[3, 2]` is then left unconsumed with the reference exhausted. -/
theorem match_sigs_star_example :
    match_sigs [1, MATCH_ANY, 2] [1, 2, 3, 2] = 1 := by decide

/-! ### C2 -/

/-- C2, counterexample: at `v = 1`, matching reference
`[Optional(v), Exact(v)]` against observed `[v]` fails — the exact-match
rule at step 1 of `match_sigs` masks the `MATCH_MAYBE` annotation off, so
an `Optional(v)` facing an observed `v` consumes it instead of being
skipped, leaving `Exact(v)` unmatched. -/
theorem match_sigs_optional_skip_counterexample :
    ¬ match_sigs [MATCH_MAYBE ||| 1, 1] [1] = 0 := by decide

/-- C2, amended: a reference `Optional(w)` at the cursor while
`wildcard_active` is false is skipped without consuming any observed value
only when the current observed value differs from `w` (when they are
equal the exact-match rule consumes both cursors); in particular, for all
24-bit values `w ≠ v`, matching reference `[Optional(w), Exact(v)]`
against observed `[v]` succeeds. -/
theorem match_sigs_optional_skip {v w : Nat}
    (hv : v < 0x1000000) (hw : w < 0x1000000) (hne : w ≠ v) :
    match_sigs [MATCH_MAYBE ||| w, v] [v] = 0 := by
  have h1 : (MATCH_MAYBE ||| w) &&& NOT_MATCH_MAYBE = w := by
    rw [Nat.lor_comm]; exact maybe_and_not_maybe hw
  have h2 : MATCH_MAYBE ||| w ≠ MATCH_ANY := by
    rw [Nat.lor_comm]; exact maybe_ne_any
  have h3 : (MATCH_MAYBE ||| w) &&& MATCH_MAYBE ≠ 0 := by
    rw [Nat.lor_comm]; exact maybe_and_maybe
  rw [match_sigs, match_sigs_loop, if_neg (by rw [h1]; exact hne), if_neg h2,
    if_pos h3]
  simp only [Bool.false_eq_true, if_false]
  rw [match_sigs_loop, if_pos (exact_and_not_maybe hv)]
  rfl

/-- C2, amended, witness at `v = 1`, `w = 2`. -/
theorem match_sigs_optional_skip_witness :
    match_sigs [MATCH_MAYBE ||| 2, 1] [1] = 0 :=
  match_sigs_optional_skip (by decide) (by decide) (by decide)

/-! ### Helper lemmas about rendering -/

/-- Every digit character that `hexChar` can produce for an actual digit. -/
theorem hexChar_not_special : ∀ k, k < 16 → hexChar k ≠ '?' ∧ hexChar k ≠ '*' := by
  decide

/-- Characters of `hexCharsGo` come from the accumulator or are digits. -/
theorem hexCharsGo_mem : ∀ fuel n acc c, c ∈ hexCharsGo fuel n acc →
    c ∈ acc ∨ ∃ k, k < 16 ∧ c = hexChar k := by
  intro fuel
  induction fuel with
  | zero => intro n acc c hc; exact .inl hc
  | succ fuel ih =>
    intro n acc c hc
    rw [hexCharsGo] at hc
    by_cases hn : n = 0
    · rw [if_pos hn] at hc; exact .inl hc
    · rw [if_neg hn] at hc
      rcases ih (n / 16) _ c hc with hacc | hdig
      · rcases List.mem_cons.mp hacc with hceq | hacc2
        · exact .inr ⟨n % 16, Nat.mod_lt n (by omega), hceq⟩
        · exact .inl hacc2
      · exact .inr hdig

/-- The output of `printf("%x", n)` never contains `?` or `*`. -/
theorem hexChars_mem {n : Nat} {c : Char} (hc : c ∈ hexChars n) :
    c ≠ '?' ∧ c ≠ '*' := by
  rw [hexChars] at hc
  by_cases hn : n = 0
  · rw [if_pos hn] at hc
    simp only [List.mem_singleton] at hc
    subst hc
    exact ⟨by decide, by decide⟩
  · rw [if_neg hn] at hc
    rcases hexCharsGo_mem n n [] c hc with habs | ⟨k, hk, hck⟩
    · cases habs
    · subst hck
      exact hexChar_not_special k hk

/-- Unfolding equation of `joinComma` on a list of two or more elements. -/
theorem joinComma_cons2 (t t2 : List Char) (ts : List (List Char)) :
    joinComma (t :: t2 :: ts) = t ++ ',' :: joinComma (t2 :: ts) := rfl

/-- A character of `joinComma ls` is a comma or comes from an element. -/
theorem joinComma_mem_of : ∀ (ls : List (List Char)) (c : Char),
    c ∈ joinComma ls → c = ',' ∨ ∃ l ∈ ls, c ∈ l := by
  intro ls
  induction ls with
  | nil => intro c hc; cases hc
  | cons t ts ih =>
    intro c hc
    cases ts with
    | nil =>
      rw [joinComma] at hc
      exact .inr ⟨t, List.mem_cons_self .., hc⟩
    | cons t2 ts2 =>
      rw [joinComma_cons2] at hc
      rcases List.mem_append.mp hc with hct | hcrest
      · exact .inr ⟨t, List.mem_cons_self .., hct⟩
      · rcases List.mem_cons.mp hcrest with hcomma | hjoin
        · exact .inl hcomma
        · rcases ih c hjoin with hcomma | ⟨l, hl, hcl⟩
          · exact .inl hcomma
          · exact .inr ⟨l, List.mem_cons_of_mem _ hl, hcl⟩

/-- Membership in an element gives membership in `joinComma`. -/
theorem mem_joinComma_of_mem : ∀ (ls : List (List Char)) (l : List Char)
    (c : Char), l ∈ ls → c ∈ l → c ∈ joinComma ls := by
  intro ls
  induction ls with
  | nil => intro l c hl _; cases hl
  | cons t ts ih =>
    intro l c hl hcl
    cases ts with
    | nil =>
      rcases List.mem_cons.mp hl with rfl | habs
      · rw [joinComma]; exact hcl
      · cases habs
    | cons t2 ts2 =>
      rw [joinComma_cons2]
      rcases List.mem_cons.mp hl with rfl | hl2
      · exact List.mem_append.mpr (.inl hcl)
      · exact List.mem_append.mpr (.inr (List.mem_cons_of_mem _ (ih l c hl2 hcl)))

/-- An exact (24-bit) cipher token renders as its bare hex digits. -/
theorem render_cipher_tok_exact {t : Nat} (h : t < 0x1000000) :
    render_cipher_tok t = hexChars t := by
  rw [render_cipher_tok, if_pos (exact_ne_any h)]
  rw [if_neg (by rw [exact_and_maybe h]; exact fun hne => hne rfl)]
  rw [exact_and_not_maybe h, List.nil_append]

/-- An exact (24-bit) extension token renders as its bare hex digits,
except for the value 0 which is rendered `?0`. -/
theorem render_ext_tok_exact {t : Nat} (h : t < 0x1000000) :
    render_ext_tok t = if t = 0 then ['?', '0'] else hexChars t := by
  rw [render_ext_tok, if_pos (exact_ne_any h)]
  by_cases h0 : t = 0
  · subst h0
    rw [if_pos (by exact .inr rfl), if_pos rfl]
    rfl
  · rw [if_neg (by
        rintro (hmay | hz)
        · rw [exact_and_maybe h] at hmay; exact hmay rfl
        · exact h0 hz),
      if_neg h0, exact_and_not_maybe h, List.nil_append]

/-! ### C4 -/

/-- C4, counterexample: the extension value 0 is an `Exact` token, yet
`dump_sig` (the `raw_sig` text emitted by `fingerprint_ssl`) renders it as
`?0` — a `?` appears in the extension field of the canonical text of an
observed signature. -/
theorem dump_sig_observed_counterexample :
    (∀ t ∈ ([0] : List Nat), t < 0x1000000) ∧
      '?' ∈ dump_sig { request_version := 0x0301, remote_time := 0, drift := 0,
                       cipher_suites := [0x2f], extensions := [0],
                       flags := 0 } := by decide

/-- C4, amended: for an observed signature (cipher and extension sequences
hold only `Exact`, i.e. 24-bit, tokens) the rendered cipher field contains
neither `*` nor `?`, and the rendered extension field contains no `*` and
contains a `?` exactly when some extension has value 0 (which `dump_sig`
renders as `?0`). -/
theorem dump_sig_observed_fields (sig : SslSig)
    (hc : ∀ t ∈ sig.cipher_suites, t < 0x1000000)
    (he : ∀ t ∈ sig.extensions, t < 0x1000000) :
    '*' ∉ dump_ciphers sig.cipher_suites ∧
    '?' ∉ dump_ciphers sig.cipher_suites ∧
    '*' ∉ dump_extensions sig.extensions ∧
    ('?' ∈ dump_extensions sig.extensions ↔ 0 ∈ sig.extensions) := by
  have hcip : ∀ c : Char, c ∈ dump_ciphers sig.cipher_suites →
      c = ',' ∨ ∃ t ∈ sig.cipher_suites, c ∈ hexChars t := by
    intro c hmem
    rcases joinComma_mem_of _ c hmem with hcomma | ⟨l, hl, hcl⟩
    · exact .inl hcomma
    · rcases List.mem_map.mp hl with ⟨t, ht, rfl⟩
      rw [render_cipher_tok_exact (hc t ht)] at hcl
      exact .inr ⟨t, ht, hcl⟩
  refine ⟨?_, ?_, ?_, ?_, ?_⟩
  · intro hmem
    rcases hcip '*' hmem with hcomma | ⟨t, _, hstar⟩
    · cases hcomma
    · exact (hexChars_mem hstar).2 rfl
  · intro hmem
    rcases hcip '?' hmem with hcomma | ⟨t, _, hq⟩
    · cases hcomma
    · exact (hexChars_mem hq).1 rfl
  · intro hmem
    rcases joinComma_mem_of _ '*' hmem with hcomma | ⟨l, hl, hcl⟩
    · cases hcomma
    · rcases List.mem_map.mp hl with ⟨t, ht, rfl⟩
      rw [render_ext_tok_exact (he t ht)] at hcl
      by_cases h0 : t = 0
      · rw [if_pos h0] at hcl
        exact absurd hcl (by decide)
      · rw [if_neg h0] at hcl
        exact (hexChars_mem hcl).2 rfl
  · intro hmem
    rcases joinComma_mem_of _ '?' hmem with hcomma | ⟨l, hl, hcl⟩
    · cases hcomma
    · rcases List.mem_map.mp hl with ⟨t, ht, rfl⟩
      rw [render_ext_tok_exact (he t ht)] at hcl
      by_cases h0 : t = 0
      · subst h0; exact ht
      · rw [if_neg h0] at hcl
        exact absurd rfl (hexChars_mem hcl).1
  · intro h0
    refine mem_joinComma_of_mem _ (render_ext_tok 0) '?'
      (List.mem_map_of_mem render_ext_tok h0) ?_
    rw [render_ext_tok_exact (by decide), if_pos rfl]
    exact List.mem_cons_self ..

/-- C4, amended, witness: a signature with ciphers `[0x2f, 0]` and
extensions `[0x10, 0]`. -/
theorem dump_sig_observed_fields_witness :
    '*' ∉ dump_ciphers [0x2f, 0] ∧ '?' ∉ dump_ciphers [0x2f, 0] ∧
    '*' ∉ dump_extensions [0x10, 0] ∧
    ('?' ∈ dump_extensions [0x10, 0] ↔ 0 ∈ ([0x10, 0] : List Nat)) :=
  dump_sig_observed_fields
    { request_version := 0x0301, remote_time := 0, drift := 0,
      cipher_suites := [0x2f, 0], extensions := [0x10, 0], flags := 0 }
    (by decide) (by decide)

/-! ### C3 -/

/-- C3: `ssl_find_match` scans the database in registration order and
returns the first record satisfying the candidate test (exact
`request_version`, exact `flags` bitset, and pattern-matching extension
and cipher-suite sequences — `candidate_match`); when it returns a record,
some position holds that record and every earlier record fails the test,
and it returns `none` exactly when no record satisfies the test.  In
particular, of two matching records the one registered first is
returned. -/
theorem ssl_find_match_first (db : List SslSigRecord) (ts : SslSig) :
    (∀ r, ssl_find_match db ts = some r →
      ∃ i, db.get? i = some r ∧ candidate_match r.sig ts = true ∧
        ∀ j, j < i → ∀ r', db.get? j = some r' →
          candidate_match r'.sig ts = false) ∧
    (ssl_find_match db ts = none ↔ ∀ r ∈ db, candidate_match r.sig ts = false) := by
  induction db with
  | nil =>
    constructor
    · intro r hr
      cases hr
    · simp [ssl_find_match]
  | cons ref rest ih =>
    by_cases hm : candidate_match ref.sig ts = true
    · refine ⟨fun r hr => ?_, ?_⟩
      · rw [ssl_find_match, if_pos hm] at hr
        injection hr with hr
        subst hr
        exact ⟨0, rfl, hm, fun j hj => by omega⟩
      · rw [ssl_find_match, if_pos hm]
        constructor
        · intro habs; cases habs
        · intro hall
          exact absurd (hall ref (List.mem_cons_self ..)) (by simp [hm])
    · have hm' : candidate_match ref.sig ts = false := by
        cases hcm : candidate_match ref.sig ts
        · rfl
        · exact absurd hcm hm
      refine ⟨fun r hr => ?_, ?_⟩
      · rw [ssl_find_match, if_neg hm] at hr
        obtain ⟨i, hget, hcond, hmin⟩ := ih.1 r hr
        refine ⟨i + 1, hget, hcond, fun j hj r' hr' => ?_⟩
        cases j with
        | zero =>
          injection hr' with hr'
          subst hr'
          exact hm'
        | succ j2 => exact hmin j2 (by omega) r' hr'
      · rw [ssl_find_match, if_neg hm]
        rw [ih.2]
        constructor
        · intro hall r hrmem
          rcases List.mem_cons.mp hrmem with rfl | hrrest
          · exact hm'
          · exact hall r hrrest
        · intro hall r hrmem
          exact hall r (List.mem_cons_of_mem _ hrmem)

/-- C3, witness: on a one-record database whose reference signature has a
different `request_version` than the observed signature, the lookup
returns `none`. -/
theorem ssl_find_match_first_witness :
    ssl_find_match
      [{ class_id := -1, name_id := 3, flavor := none, label_id := 0,
         sys := [], line_no := 10, generic := false,
         sig := { request_version := 0x0303, remote_time := 0, drift := 0,
                  cipher_suites := [0x2f], extensions := [], flags := 0 } }]
      { request_version := 0x0301, remote_time := 0, drift := 0,
        cipher_suites := [0x2f], extensions := [], flags := 0 } = none :=
  (ssl_find_match_first _ _).2.mpr (by decide)

/-! ### C6 -/

/-- C6, counterexample: parsing the exact byte string
`80 2F 01 00 02 00 00 00 00 00 06 01 00 80 07 00 C0` with the SSLv2
dissector does not produce the outcome the spec describes: at offsets 3-4
the bytes are `ver_maj = 0, ver_min = 2` (not major 3 / minor 0) and the
`cipher_spec_length` field at offsets 5-6 is 0 (not 6), so no signature
with cipher suites `[0x010080, 0x0700C0]` and version 3.0 results. -/
theorem fingerprint_ssl_v2_literal_counterexample :
    ¬ ∃ s, fingerprint_ssl_v2 { zeroSig with flags := SSL_FLAG_V2 }
        [0x80, 0x2F, 0x01, 0x00, 0x02, 0x00, 0x00, 0x00, 0x00, 0x00, 0x06,
         0x01, 0x00, 0x80, 0x07, 0x00, 0xC0] = some s ∧
      s.cipher_suites = [0x010080, 0x0700C0] ∧ s.extensions = [] ∧
      s.request_version = 0x0300 := by decide

/-- C6, amended: parsing the exact byte string
`80 2F 01 00 02 00 00 00 00 00 06 01 00 80 07 00 C0` with the SSLv2
dissector succeeds and yields an empty cipher-suite sequence (the
`cipher_spec_length` field, offsets 5-6, is 0), an empty extensions
sequence, and `request_version = 0x0200` (the version bytes at offsets 3-4
are `00 02`, the SSLv2 wire-format quirk); the `challenge_length` field
holds the 6 and the final 6 bytes are a tolerated trailer. -/
theorem fingerprint_ssl_v2_literal :
    fingerprint_ssl_v2 { zeroSig with flags := SSL_FLAG_V2 }
        [0x80, 0x2F, 0x01, 0x00, 0x02, 0x00, 0x00, 0x00, 0x00, 0x00, 0x06,
         0x01, 0x00, 0x80, 0x07, 0x00, 0xC0]
      = some { request_version := 0x0200, remote_time := 0, drift := 0,
               cipher_suites := [], extensions := [],
               flags := SSL_FLAG_V2 } := by decide

/-! ### Helper lemmas about the dissectors -/

/-- Bytes of a contiguous slice satisfy any bound the buffer satisfies. -/
theorem slice_bytes_lt {l : List Nat} {n m : Nat}
    (h : ∀ b ∈ l, b < 256) : ∀ b ∈ (l.drop n).take m, b < 256 :=
  fun b hb => h b (List.drop_subset _ _ (List.take_subset _ _ hb))

/-- A shifted byte is below the 24-bit bound when the shift keeps it
within 24 bits. -/
theorem byte_shiftLeft_lt {b s : Nat} (hb : b < 256) (hs : s ≤ 16) :
    b <<< s < 2 ^ 24 := by
  rw [Nat.shiftLeft_eq]
  calc b * 2 ^ s < 256 * 2 ^ s := (Nat.mul_lt_mul_right (by positivity)).mpr hb
    _ = 2 ^ (8 + s) := by rw [Nat.pow_add]
    _ ≤ 2 ^ 24 := Nat.pow_le_pow_right (by norm_num) (by omega)

/-- Values assembled by `read24List` from bytes are 24-bit. -/
theorem read24List_lt : ∀ (l : List Nat), (∀ b ∈ l, b < 256) →
    ∀ t ∈ read24List l, t < 0x1000000
  | b0 :: b1 :: b2 :: rest, hb, t, ht => by
    rw [show read24List (b0 :: b1 :: b2 :: rest)
        = ((b0 <<< 16) ||| (b1 <<< 8) ||| b2) :: read24List rest from rfl] at ht
    rcases List.mem_cons.mp ht with rfl | ht2
    · have h0 : b0 <<< 16 < 2 ^ 24 := byte_shiftLeft_lt (hb b0 (by simp)) (by norm_num)
      have h1 : b1 <<< 8 < 2 ^ 24 := byte_shiftLeft_lt (hb b1 (by simp)) (by norm_num)
      have h2 : b2 < 2 ^ 24 := by
        have : b2 < 256 := hb b2 (by simp)
        omega
      have := Nat.or_lt_two_pow (Nat.or_lt_two_pow h0 h1) h2
      norm_num at this ⊢
      omega
    · exact read24List_lt rest (fun b hbm => hb b (by simp [hbm])) t ht2
  | [], _, t, ht => by cases ht
  | [b0], _, t, ht => by
    rw [show read24List [b0] = [] from rfl] at ht
    cases ht
  | [b0, b1], _, t, ht => by
    rw [show read24List [b0, b1] = [] from rfl] at ht
    cases ht

/-- Values assembled by `read16List` from bytes are 16-bit. -/
theorem read16List_lt : ∀ (l : List Nat), (∀ b ∈ l, b < 256) →
    ∀ t ∈ read16List l, t < 0x10000
  | b0 :: b1 :: rest, hb, t, ht => by
    rw [show read16List (b0 :: b1 :: rest)
        = ((b0 <<< 8) ||| b1) :: read16List rest from rfl] at ht
    rcases List.mem_cons.mp ht with rfl | ht2
    · have h0 : b0 <<< 8 < 2 ^ 16 := by
        rw [Nat.shiftLeft_eq]
        have : b0 < 256 := hb b0 (by simp)
        calc b0 * 2 ^ 8 < 256 * 2 ^ 8 := (Nat.mul_lt_mul_right (by norm_num)).mpr this
          _ = 2 ^ 16 := by norm_num
      have h1 : b1 < 2 ^ 16 := by
        have : b1 < 256 := hb b1 (by simp)
        omega
      have := Nat.or_lt_two_pow h0 h1
      norm_num at this ⊢
      omega
    · exact read16List_lt rest (fun b hbm => hb b (by simp [hbm])) t ht2
  | [], _, t, ht => by cases ht
  | [b0], _, t, ht => by
    rw [show read16List [b0] = [] from rfl] at ht
    cases ht

/-- Extension types assembled by `ssl3_ext_loop_go` from bytes are
16-bit. -/
theorem ssl3_ext_loop_go_lt : ∀ (fuel : Nat) (region : List Nat),
    (∀ b ∈ region, b < 256) → ∀ t ∈ ssl3_ext_loop_go fuel region, t < 0x10000 := by
  intro fuel
  induction fuel with
  | zero => intro region _ t ht; cases ht
  | succ fuel ih =>
    intro region hb t ht
    match region, ht with
    | b0 :: b1 :: b2 :: b3 :: rest, ht =>
      rw [show ssl3_ext_loop_go (fuel + 1) (b0 :: b1 :: b2 :: b3 :: rest)
          = ((b0 <<< 8) ||| b1) ::
            (if (b2 <<< 8) ||| b3 ≤ rest.length then
              ssl3_ext_loop_go fuel (rest.drop ((b2 <<< 8) ||| b3)) else [])
          from rfl] at ht
      rcases List.mem_cons.mp ht with rfl | ht2
      · have h0 : b0 <<< 8 < 2 ^ 16 := by
          rw [Nat.shiftLeft_eq]
          have : b0 < 256 := hb b0 (by simp)
          calc b0 * 2 ^ 8 < 256 * 2 ^ 8 := (Nat.mul_lt_mul_right (by norm_num)).mpr this
            _ = 2 ^ 16 := by norm_num
        have h1 : b1 < 2 ^ 16 := by
          have : b1 < 256 := hb b1 (by simp)
          omega
        have := Nat.or_lt_two_pow h0 h1
        norm_num at this ⊢
        omega
      · by_cases hfit : (b2 <<< 8) ||| b3 ≤ rest.length
        · rw [if_pos hfit] at ht2
          refine ih (rest.drop ((b2 <<< 8) ||| b3)) ?_ t ht2
          intro b hbm
          exact hb b (by simp [List.drop_subset _ _ hbm])
        · rw [if_neg hfit] at ht2
          cases ht2

/-- An `Exact` (24-bit) token carries neither the wildcard sentinel nor the
optional annotation. -/
theorem exactTok_of_lt {t : Nat} (h : t < 0x1000000) :
    t < 0x1000000 ∧ t ≠ MATCH_ANY ∧ t &&& MATCH_MAYBE = 0 :=
  ⟨h, exact_ne_any h, exact_and_maybe h⟩

/-- The cipher suites of the partially-built SSLv3 signature. -/
theorem sslv3_base_sig_ciphers (sig : SslSig) (body : List Nat)
    (rv lt off2 csl : Nat) :
    (sslv3_base_sig sig body rv lt off2 csl).cipher_suites
      = read16List ((body.drop off2).take csl) := rfl

/-- The extensions of the partially-built SSLv3 signature are empty. -/
theorem sslv3_base_sig_extensions (sig : SslSig) (body : List Nat)
    (rv lt off2 csl : Nat) :
    (sslv3_base_sig sig body rv lt off2 csl).extensions = [] := rfl

/-- Cipher suites extracted by the SSLv3 dissector are `Exact` tokens. -/
theorem sslv3_base_ciphers_exact {B : List Nat} (hbody : ∀ b ∈ B, b < 256)
    (sig : SslSig) (rv lt off2 csl : Nat) :
    ∀ t ∈ (sslv3_base_sig sig B rv lt off2 csl).cipher_suites,
      t < 0x1000000 ∧ t ≠ MATCH_ANY ∧ t &&& MATCH_MAYBE = 0 := by
  intro t ht
  rw [sslv3_base_sig_ciphers] at ht
  refine exactTok_of_lt ?_
  have := read16List_lt _ (slice_bytes_lt hbody) t ht
  omega

/-- Extension types extracted by the SSLv3 dissector are `Exact` tokens. -/
theorem ssl3_ext_loop_exact {B : List Nat} (hbody : ∀ b ∈ B, b < 256)
    (off len : Nat) :
    ∀ t ∈ ssl3_ext_loop ((B.drop off).take len),
      t < 0x1000000 ∧ t ≠ MATCH_ANY ∧ t &&& MATCH_MAYBE = 0 := by
  intro t ht
  refine exactTok_of_lt ?_
  have := ssl3_ext_loop_go_lt _ _ (slice_bytes_lt hbody) t
    (by simpa [ssl3_ext_loop] using ht)
  omega

/-! ### C5 -/

set_option maxHeartbeats 1000000 in
/-- C5: every signature produced by a successful run of either dissector on
byte input has cipher-suite and extension sequences containing only
`Exact` tokens: each element is a 24-bit value, is not the `MATCH_ANY`
wildcard sentinel, and does not carry the `MATCH_MAYBE` optional
annotation. -/
theorem dissectors_emit_exact_tokens (sig2 sig3 : SslSig)
    (pay frag : List Nat) (rv lt : Nat)
    (hpay : ∀ b ∈ pay, b < 256) (hfrag : ∀ b ∈ frag, b < 256) :
    (∀ s, fingerprint_ssl_v2 sig2 pay = some s →
      (∀ t ∈ s.cipher_suites, t < 0x1000000 ∧ t ≠ MATCH_ANY ∧ t &&& MATCH_MAYBE = 0) ∧
      (∀ t ∈ s.extensions, t < 0x1000000 ∧ t ≠ MATCH_ANY ∧ t &&& MATCH_MAYBE = 0)) ∧
    (∀ s, fingerprint_ssl_v3 sig3 frag rv lt = some s →
      (∀ t ∈ s.cipher_suites, t < 0x1000000 ∧ t ≠ MATCH_ANY ∧ t &&& MATCH_MAYBE = 0) ∧
      (∀ t ∈ s.extensions, t < 0x1000000 ∧ t ≠ MATCH_ANY ∧ t &&& MATCH_MAYBE = 0)) := by
  constructor
  · intro s hs
    simp only [fingerprint_ssl_v2] at hs
    split_ifs at hs
    all_goals
      injection hs with hs
      subst hs
      refine ⟨fun t ht => ?_, fun t ht => ?_⟩ <;> simp only at ht <;>
        first
        | cases ht
        | exact exactTok_of_lt (read24List_lt _ (slice_bytes_lt hpay) t ht)
  · intro s hs
    simp only [fingerprint_ssl_v3] at hs
    have hbody : ∀ b ∈ sslv3_body frag, b < 256 := by
      rw [sslv3_body]
      exact slice_bytes_lt hfrag
    generalize hM : sslv3_msg_len frag = M at hs
    generalize hB : sslv3_body frag = B at hs hbody
    generalize hsid : byteAt B 34 = sid at hs
    generalize hcsl : be16 B (35 + sid) = csl at hs
    generalize hcml : byteAt B (35 + sid + 2 + csl) = cml at hs
    generalize hext : be16 B (35 + sid + 2 + csl + 1 + cml) = extlen at hs
    by_cases c1 : 4 + M > frag.length
    · rw [if_pos c1] at hs
      exact Option.noConfusion hs
    rw [if_neg c1] at hs
    by_cases c2 : byteAt frag 0 ≠ SSL3_MSG_CLIENT_HELLO
    · rw [if_pos c2] at hs
      exact Option.noConfusion hs
    rw [if_neg c2] at hs
    by_cases c3 : 2 + 4 + 28 + 1 > M
    · rw [if_pos c3] at hs
      exact Option.noConfusion hs
    rw [if_neg c3] at hs
    by_cases c4 : 35 + sid + 2 > M
    · rw [if_pos c4] at hs
      exact Option.noConfusion hs
    rw [if_neg c4] at hs
    by_cases c5 : csl % 2 ≠ 0
    · rw [if_pos c5] at hs
      exact Option.noConfusion hs
    rw [if_neg c5] at hs
    by_cases c6 : 35 + sid + 2 + csl > M
    · rw [if_pos c6] at hs
      exact Option.noConfusion hs
    rw [if_neg c6] at hs
    by_cases c7 : 35 + sid + 2 + csl + 1 > M
    · rw [if_pos c7] at hs
      injection hs with hs
      subst hs
      exact ⟨sslv3_base_ciphers_exact hbody sig3 rv lt _ _,
             fun t ht => absurd ht (List.not_mem_nil t)⟩
    rw [if_neg c7] at hs
    by_cases c8 : 35 + sid + 2 + csl + 1 + cml > M
    · rw [if_pos c8] at hs
      injection hs with hs
      subst hs
      exact ⟨sslv3_base_ciphers_exact hbody sig3 rv lt _ _,
             fun t ht => absurd ht (List.not_mem_nil t)⟩
    rw [if_neg c8] at hs
    by_cases c9 : 35 + sid + 2 + csl + 1 + cml + 2 > M
    · rw [if_pos c9] at hs
      injection hs with hs
      subst hs
      exact ⟨sslv3_base_ciphers_exact hbody sig3 rv lt _ _,
             fun t ht => absurd ht (List.not_mem_nil t)⟩
    rw [if_neg c9] at hs
    by_cases c10 : 35 + sid + 2 + csl + 1 + cml + 2 + extlen > M
    · rw [if_pos c10] at hs
      injection hs with hs
      subst hs
      exact ⟨sslv3_base_ciphers_exact hbody sig3 rv lt _ _,
             fun t ht => absurd ht (List.not_mem_nil t)⟩
    rw [if_neg c10] at hs
    injection hs with hs
    subst hs
    exact ⟨sslv3_base_ciphers_exact hbody sig3 rv lt _ _,
           ssl3_ext_loop_exact hbody _ _⟩

/-- C5, witness: a concrete SSLv2 payload parsed successfully, with its
first extracted cipher token `Exact`. -/
theorem dissectors_emit_exact_tokens_witness :
    0x010080 < 0x1000000 ∧ 0x010080 ≠ MATCH_ANY ∧
      0x010080 &&& MATCH_MAYBE = 0 :=
  ((dissectors_emit_exact_tokens zeroSig zeroSig
      [0x80, 0x2F, 0x01, 0x03, 0x00, 0x00, 0x06, 0x00, 0x00, 0x00, 0x00,
       0x01, 0x00, 0x80, 0x07, 0x00, 0xC0]
      [] 0 0 (by decide) (by decide)).1
    { request_version := 0x0300, remote_time := 0, drift := 0,
      cipher_suites := [0x010080, 0x0700C0], extensions := [], flags := 0 }
    (by decide)).1 0x010080 (by decide)

/-! ### Helper lemmas for the truncation property -/

/-- A big-endian pair `(b <<< 8) ||| b'` is plain arithmetic when the low
byte is a byte. -/
theorem or_byte_eq_mul_add {b b' : Nat} (h : b' < 256) :
    (b <<< 8) ||| b' = b * 256 + b' := by
  have h1 : b <<< 8 = 2 ^ 8 * b := by
    rw [Nat.shiftLeft_eq]
    ring
  rw [h1, ← Nat.mul_add_lt_is_or (by norm_num; omega) b]
  ring

/-- Splitting off the head of `drop` through `byteAt`. -/
theorem drop_cons_byteAt {l : List Nat} {n : Nat} (h : n < l.length) :
    l.drop n = byteAt l n :: l.drop (n + 1) := by
  rw [List.drop_eq_getElem_cons h, byteAt, List.getD_eq_getElem _ _ h]

/-- In-bounds `byteAt` reads are list elements. -/
theorem byteAt_mem {l : List Nat} {n : Nat} (h : n < l.length) :
    byteAt l n ∈ l := by
  rw [byteAt, List.getD_eq_getElem _ _ h]
  exact List.getElem_mem ..

/-- The code's extension walk and the spec's extension walk agree on byte
regions, fuel-level version. -/
theorem ssl3_ext_loop_go_eq_spec : ∀ (fuel : Nat) (region : List Nat),
    (∀ b ∈ region, b < 256) →
    ssl3_ext_loop_go fuel region = specExtWalkGo fuel region := by
  intro fuel
  induction fuel with
  | zero => intro region _; rfl
  | succ fuel ih =>
    intro region hb
    match region with
    | [] => rfl
    | [a] => rfl
    | [a, b] => rfl
    | [a, b, c] => rfl
    | b0 :: b1 :: b2 :: b3 :: rest =>
      rw [show ssl3_ext_loop_go (fuel + 1) (b0 :: b1 :: b2 :: b3 :: rest)
          = ((b0 <<< 8) ||| b1) ::
            (if (b2 <<< 8) ||| b3 ≤ rest.length then
              ssl3_ext_loop_go fuel (rest.drop ((b2 <<< 8) ||| b3)) else [])
          from rfl,
        show specExtWalkGo (fuel + 1) (b0 :: b1 :: b2 :: b3 :: rest)
          = (b0 * 256 + b1) ::
            (if b2 * 256 + b3 ≤ rest.length then
              specExtWalkGo fuel (rest.drop (b2 * 256 + b3)) else [])
          from rfl]
      have e1 : (b0 <<< 8) ||| b1 = b0 * 256 + b1 :=
        or_byte_eq_mul_add (hb b1 (by simp))
      have e2 : (b2 <<< 8) ||| b3 = b2 * 256 + b3 :=
        or_byte_eq_mul_add (hb b3 (by simp))
      rw [e1, e2]
      congr 1
      by_cases hle : b2 * 256 + b3 ≤ rest.length
      · rw [if_pos hle, if_pos hle]
        exact ih _ (fun b hbm => hb b (by simp [List.drop_subset _ _ hbm]))
      · rw [if_neg hle, if_neg hle]

/-- The code's extension walk equals the spec's extension walk on byte
regions. -/
theorem ssl3_ext_loop_eq_specExtWalk (region : List Nat)
    (hb : ∀ b ∈ region, b < 256) :
    ssl3_ext_loop region = specExtWalk region := by
  rw [ssl3_ext_loop, specExtWalk]
  exact ssl3_ext_loop_go_eq_spec _ _ hb

/-- Unfolding of `specExtensionsAfterCiphers` on a non-empty rest. -/
theorem specExtensionsAfterCiphers_cons (cml : Nat) (rest1 : List Nat) :
    specExtensionsAfterCiphers (cml :: rest1)
      = if cml ≤ rest1.length then
          (match rest1.drop cml with
           | e0 :: e1 :: rest3 =>
             if e0 * 256 + e1 ≤ rest3.length then
               specExtWalk (rest3.take (e0 * 256 + e1))
             else []
           | _ => [])
        else [] := rfl

/-! ### C7 -/

/-- C7: for every SSLv3/TLS ClientHello fragment that is well-formed
through the cipher-suite list (declared message length fits the fragment,
message type is ClientHello, fixed header and session id fit, cipher list
even and fitting) — including every fragment truncated or
length-inconsistent inside the extension list — the dissector succeeds,
and the resulting extensions sequence is exactly the extension types read
before the truncation point, in order, as described by the
specification-side `specExtensionsAfterCiphers` walk over the bytes
following the cipher-suite list. -/
theorem fingerprint_ssl_v3_truncation_tolerant
    (sig0 : SslSig) (frag : List Nat) (rv lt : Nat)
    (hbytes : ∀ b ∈ frag, b < 256)
    (hfit : 4 + sslv3_msg_len frag ≤ frag.length)
    (hty : byteAt frag 0 = SSL3_MSG_CLIENT_HELLO)
    (hhdr : 35 ≤ sslv3_msg_len frag)
    (hsid : 35 + byteAt (sslv3_body frag) 34 + 2 ≤ sslv3_msg_len frag)
    (heven : be16 (sslv3_body frag) (35 + byteAt (sslv3_body frag) 34) % 2 = 0)
    (hcfit : 35 + byteAt (sslv3_body frag) 34 + 2 +
        be16 (sslv3_body frag) (35 + byteAt (sslv3_body frag) 34)
      ≤ sslv3_msg_len frag) :
    ∃ s, fingerprint_ssl_v3 sig0 frag rv lt = some s ∧
      s.extensions = specExtensionsAfterCiphers
        ((sslv3_body frag).drop (35 + byteAt (sslv3_body frag) 34 + 2 +
          be16 (sslv3_body frag) (35 + byteAt (sslv3_body frag) 34))) := by
  have hBlen : (sslv3_body frag).length = sslv3_msg_len frag := by
    rw [sslv3_body, List.length_take, List.length_drop]
    omega
  have hbody : ∀ b ∈ sslv3_body frag, b < 256 := by
    rw [sslv3_body]
    exact slice_bytes_lt hbytes
  simp only [fingerprint_ssl_v3]
  obtain ⟨M, hM⟩ : ∃ M, sslv3_msg_len frag = M := ⟨_, rfl⟩
  rw [hM] at hfit hhdr hsid hcfit hBlen ⊢
  obtain ⟨B, hB⟩ : ∃ B, sslv3_body frag = B := ⟨_, rfl⟩
  rw [hB] at hsid heven hcfit hBlen hbody ⊢
  obtain ⟨sid, hsidv⟩ : ∃ sid, byteAt B 34 = sid := ⟨_, rfl⟩
  rw [hsidv] at hsid heven hcfit ⊢
  obtain ⟨csl, hcslv⟩ : ∃ csl, be16 B (35 + sid) = csl := ⟨_, rfl⟩
  rw [hcslv] at heven hcfit ⊢
  obtain ⟨cml, hcmlv⟩ : ∃ cml, byteAt B (35 + sid + 2 + csl) = cml := ⟨_, rfl⟩
  rw [hcmlv]
  obtain ⟨extlen, hextv⟩ : ∃ extlen, be16 B (35 + sid + 2 + csl + 1 + cml) = extlen :=
    ⟨_, rfl⟩
  rw [hextv]
  rw [if_neg (by omega : ¬4 + M > frag.length),
    if_neg (show ¬byteAt frag 0 ≠ SSL3_MSG_CLIENT_HELLO from fun hno => hno hty),
    if_neg (by omega : ¬2 + 4 + 28 + 1 > M),
    if_neg (by omega : ¬35 + sid + 2 > M),
    if_neg (show ¬csl % 2 ≠ 0 from fun hno => hno heven),
    if_neg (by omega : ¬35 + sid + 2 + csl > M)]
  by_cases c7 : 35 + sid + 2 + csl + 1 > M
  · rw [if_pos c7]
    refine ⟨_, rfl, ?_⟩
    rw [sslv3_base_sig_extensions, List.drop_eq_nil_of_le (by omega)]
    rfl
  rw [if_neg c7]
  have hoff3 : 35 + sid + 2 + csl < B.length := by omega
  by_cases c8 : 35 + sid + 2 + csl + 1 + cml > M
  · rw [if_pos c8]
    refine ⟨_, rfl, ?_⟩
    rw [sslv3_base_sig_extensions, drop_cons_byteAt hoff3, hcmlv,
      specExtensionsAfterCiphers_cons,
      if_neg (by rw [List.length_drop]; omega)]
  rw [if_neg c8]
  by_cases c9 : 35 + sid + 2 + csl + 1 + cml + 2 > M
  · rw [if_pos c9]
    refine ⟨_, rfl, ?_⟩
    show ([] : List Nat) = _
    rw [drop_cons_byteAt hoff3, hcmlv, specExtensionsAfterCiphers_cons,
      if_pos (by rw [List.length_drop]; omega), List.drop_drop]
    rcases hr : B.drop (35 + sid + 2 + csl + 1 + cml) with _ | ⟨a, _ | ⟨b, tl⟩⟩
    · rfl
    · rfl
    · exfalso
      have := congrArg List.length hr
      rw [List.length_drop] at this
      simp at this
      omega
  rw [if_neg c9]
  have hoff5 : 35 + sid + 2 + csl + 1 + cml < B.length := by omega
  have hoff5' : 35 + sid + 2 + csl + 1 + cml + 1 < B.length := by omega
  have hbyte1 : byteAt B (35 + sid + 2 + csl + 1 + cml + 1) < 256 :=
    hbody _ (byteAt_mem hoff5')
  have hml : byteAt B (35 + sid + 2 + csl + 1 + cml) * 256 +
      byteAt B (35 + sid + 2 + csl + 1 + cml + 1) = extlen := by
    rw [← hextv, be16, or_byte_eq_mul_add hbyte1]
  by_cases c10 : 35 + sid + 2 + csl + 1 + cml + 2 + extlen > M
  · rw [if_pos c10]
    refine ⟨_, rfl, ?_⟩
    show ([] : List Nat) = _
    rw [drop_cons_byteAt hoff3, hcmlv, specExtensionsAfterCiphers_cons,
      if_pos (by rw [List.length_drop]; omega), List.drop_drop,
      drop_cons_byteAt hoff5, drop_cons_byteAt hoff5']
    dsimp only
    rw [hml, if_neg (by rw [List.length_drop]; omega)]
  rw [if_neg c10]
  refine ⟨_, rfl, ?_⟩
  show ssl3_ext_loop _ = _
  rw [drop_cons_byteAt hoff3, hcmlv, specExtensionsAfterCiphers_cons,
    if_pos (by rw [List.length_drop]; omega), List.drop_drop,
    drop_cons_byteAt hoff5, drop_cons_byteAt hoff5']
  dsimp only
  rw [hml, if_pos (by rw [List.length_drop]; omega),
    (show (35 + sid + 2 + csl + 1 + cml + 1 + 1 : Nat)
        = 35 + sid + 2 + csl + 1 + cml + 2 by omega)]
  exact ssl3_ext_loop_eq_specExtWalk _ (slice_bytes_lt hbody)

/-- C7, witness: on the concrete fragment `truncFrag`, whose extension
list declares an inner extension longer than the bytes present, the parse
succeeds and the extensions are the types read before the truncation
point. -/
theorem fingerprint_ssl_v3_truncation_tolerant_witness :
    ∃ s, fingerprint_ssl_v3 zeroSig truncFrag 0x0303 0 = some s ∧
      s.extensions = specExtensionsAfterCiphers
        ((sslv3_body truncFrag).drop (35 + byteAt (sslv3_body truncFrag) 34 + 2 +
          be16 (sslv3_body truncFrag) (35 + byteAt (sslv3_body truncFrag) 34))) :=
  fingerprint_ssl_v3_truncation_tolerant zeroSig truncFrag 0x0303 0
    (by decide) (by decide) (by decide) (by decide) (by decide) (by decide)
    (by decide)

/-! ### Helper lemmas about the decoder -/

/-- A lowercase hex digit is none of the special characters the decoder
treats separately. -/
theorem isHexDigLower_ne {c : Char} (h : isHexDigLower c = true) :
    c ≠ '*' ∧ c ≠ '?' ∧ c ≠ 'x' ∧ c ≠ 'X' := by
  refine ⟨?_, ?_, ?_, ?_⟩ <;> (rintro rfl; simp [isHexDigLower] at h)

/-- A lowercase hex digit has a hex value. -/
theorem isHexDigLower_isSome {c : Char} (h : isHexDigLower c = true) :
    (hexDigitVal c).isSome = true := by
  simp only [isHexDigLower, Bool.or_eq_true, Bool.and_eq_true,
    decide_eq_true_eq] at h
  rw [hexDigitVal]
  rcases h with ⟨h1, h2⟩ | ⟨h1, h2⟩
  · rw [if_pos ⟨h1, h2⟩]
    rfl
  · rw [if_neg (by omega), if_pos ⟨h1, h2⟩]
    rfl

/-- `takeHex` consumes a run of hex digits exactly up to the first
non-digit (the `' '` default makes the empty remainder case uniform). -/
theorem takeHex_append : ∀ (d : List Char) (acc : Nat),
    (∀ c ∈ d, (hexDigitVal c).isSome = true) →
    ∀ (r : List Char), hexDigitVal (r.headD ' ') = none →
    takeHex (d ++ r) acc = ((takeHex d acc).1, r) := by
  intro d
  induction d with
  | nil =>
    intro acc _ r hr
    cases r with
    | nil => rfl
    | cons c tl =>
      simp only [List.headD_cons] at hr
      rw [List.nil_append,
        show takeHex (c :: tl) acc
          = (match hexDigitVal c with
             | some dg => takeHex tl (acc * 16 + dg)
             | none => (acc, c :: tl)) from rfl,
        hr]
      rfl
  | cons c d' ih =>
    intro acc hd r hr
    obtain ⟨v, hv⟩ := Option.isSome_iff_exists.mp (hd c (by simp))
    rw [List.cons_append,
      show takeHex (c :: (d' ++ r)) acc
        = (match hexDigitVal c with
           | some dg => takeHex (d' ++ r) (acc * 16 + dg)
           | none => (acc, c :: (d' ++ r))) from rfl,
      hv,
      show takeHex (c :: d') acc
        = (match hexDigitVal c with
           | some dg => takeHex d' (acc * 16 + dg)
           | none => (acc, c :: d')) from rfl,
      hv]
    exact ih (acc * 16 + v) (fun c2 hc2 => hd c2 (by simp [hc2])) r hr

/-- Unfolding of `strtol_parsed` on two or more characters when the
`0x`-prefix rule does not apply. -/
theorem strtol_parsed_cons2 (c0 c1 : Char) (tl : List Char)
    (h : ¬(c0 = '0' ∧ (c1 = 'x' ∨ c1 = 'X') ∧
      (hexDigitVal (tl.headD ' ')).isSome = true)) :
    strtol_parsed (c0 :: c1 :: tl) = takeHex (c0 :: c1 :: tl) 0 := by
  show (if c0 = '0' ∧ (c1 = 'x' ∨ c1 = 'X') ∧
      (hexDigitVal (tl.headD ' ')).isSome = true then takeHex tl 0
    else takeHex (c0 :: c1 :: tl) 0) = _
  rw [if_neg h]

/-- `strtol(val, &val, 16)` on a well-formed run of lowercase hex digits
followed by a separator consumes exactly the digits: the value is that of
the digits alone and the remainder starts at the separator. -/
theorem strtol_hex16_append (d r : List Char)
    (hne : d ≠ []) (hd : ∀ c ∈ d, isHexDigLower c = true)
    (hr : r = [] ∨ r.headD ' ' = ',' ∨ r.headD ' ' = ':') :
    strtol_hex16 (d ++ r) = ((strtol_hex16 d).1, r) := by
  have hrnone : hexDigitVal (r.headD ' ') = none := by
    rcases hr with rfl | hr | hr
    · rfl
    · rw [hr]; rfl
    · rw [hr]; rfl
  have hdsome : ∀ c ∈ d, (hexDigitVal c).isSome = true :=
    fun c hc => isHexDigLower_isSome (hd c hc)
  have htk := takeHex_append d 0 hdsome r hrnone
  have hpl : strtol_parsed (d ++ r) = takeHex (d ++ r) 0 := by
    match d, hne with
    | [c0], _ =>
      cases r with
      | nil => rfl
      | cons c1 tl =>
        have hc1 : c1 = ',' ∨ c1 = ':' := by
          rcases hr with habs | hr | hr
          · cases habs
          · exact .inl (by simpa using hr)
          · exact .inr (by simpa using hr)
        exact strtol_parsed_cons2 c0 c1 tl (by
          rintro ⟨-, hx1 | hx1, -⟩ <;> rcases hc1 with rfl | rfl <;> simp at hx1)
    | c0 :: c1 :: d2, _ =>
      have hx := isHexDigLower_ne (hd c1 (by simp))
      exact strtol_parsed_cons2 c0 c1 (d2 ++ r) (by
        rintro ⟨-, hx1 | hx1, -⟩
        · exact hx.2.2.1 hx1
        · exact hx.2.2.2 hx1)
  have hpd : strtol_parsed d = takeHex d 0 := by
    match d, hne with
    | [c0], _ => rfl
    | c0 :: c1 :: d2, _ =>
      have hx := isHexDigLower_ne (hd c1 (by simp))
      exact strtol_parsed_cons2 c0 c1 d2 (by
        rintro ⟨-, hx1 | hx1, -⟩
        · exact hx.2.2.1 hx1
        · exact hx.2.2.2 hx1)
  rw [strtol_hex16, strtol_hex16, hpl, hpd, htk]

/-- Unfolding of `decode_hex_value` on a non-empty input. -/
theorem decode_hex_value_cons (c : Char) (tl : List Char) :
    decode_hex_value (c :: tl)
      = (if c = '*' then some (MATCH_ANY, tl)
         else if c = '?' then
           (if (strtol_hex16 tl).2.length = tl.length then none
            else some (((strtol_hex16 tl).1 &&& 0xFFFFFF) ||| MATCH_MAYBE,
              (strtol_hex16 tl).2))
         else if isHexDigLower c then
           (if (strtol_hex16 (c :: tl)).2.length = (c :: tl).length then none
            else some ((strtol_hex16 (c :: tl)).1 &&& 0xFFFFFF,
              (strtol_hex16 (c :: tl)).2))
         else none) := rfl

/-- Unfolding of `wfToken` on a non-empty token. -/
theorem wfToken_cons (c : Char) (d : List Char) :
    wfToken (c :: d)
      = (if c = '*' then d.isEmpty
         else if c = '?' then ¬ d.isEmpty && d.all isHexDigLower
         else isHexDigLower c && d.all isHexDigLower) := rfl

/-- Unfolding of `tokVal` on a non-empty token. -/
theorem tokVal_cons (c : Char) (d : List Char) :
    tokVal (c :: d)
      = (if c = '*' then MATCH_ANY
         else if c = '?' then ((strtol_hex16 d).1 &&& 0xFFFFFF) ||| MATCH_MAYBE
         else (strtol_hex16 (c :: d)).1 &&& 0xFFFFFF) := rfl

/-- State #1 of the decoder consumes exactly one well-formed token followed
by a separator, producing its annotated value. -/
theorem decode_hex_value_wf (t r : List Char) (hwf : wfToken t = true)
    (hr : r = [] ∨ r.headD ' ' = ',' ∨ r.headD ' ' = ':') :
    decode_hex_value (t ++ r) = some (tokVal t, r) := by
  match t with
  | [] => exact absurd hwf (by simp [wfToken])
  | c :: d =>
    rw [List.cons_append, decode_hex_value_cons, tokVal_cons]
    rw [wfToken_cons] at hwf
    by_cases hstar : c = '*'
    · simp only [if_pos hstar] at hwf ⊢
      have hd : d = [] := by simpa using hwf
      subst hd
      rw [List.nil_append]
    · simp only [if_neg hstar] at hwf ⊢
      by_cases hq : c = '?'
      · simp only [if_pos hq] at hwf ⊢
        rcases Bool.and_eq_true_iff.mp hwf with ⟨hdne, hdall⟩
        have hdne' : d ≠ [] := by
          intro habs
          subst habs
          simp at hdne
        have hdall' : ∀ c2 ∈ d, isHexDigLower c2 = true :=
          fun c2 hc2 => List.all_eq_true.mp hdall c2 hc2
        rw [strtol_hex16_append d r hdne' hdall' hr]
        rw [if_neg (by
          dsimp only
          rw [List.length_append]
          have : d.length ≠ 0 := fun habs => hdne' (List.length_eq_zero.mp habs)
          omega)]
      · simp only [if_neg hq] at hwf ⊢
        rcases Bool.and_eq_true_iff.mp hwf with ⟨hc, hdall⟩
        simp only [if_pos hc]
        have hall : ∀ c2 ∈ c :: d, isHexDigLower c2 = true := by
          intro c2 hc2
          rcases List.mem_cons.mp hc2 with rfl | hc2
          · exact hc
          · exact List.all_eq_true.mp hdall c2 hc2
        rw [show (c :: (d ++ r)) = (c :: d) ++ r from rfl,
          strtol_hex16_append (c :: d) r (by simp) hall hr]
        rw [if_neg (by
          dsimp only
          simp only [List.length_append, List.length_cons]
          omega)]

/-- The decoder loop on a well-formed comma-separated token sequence:
entered with `left` permitted iterations, it succeeds exactly when the
token count fits and aborts fatally otherwise. -/
theorem decode_hex_loop_wf : ∀ (ts : List (List Char)) (left : Nat)
    (rc : List Nat) (rest0 : List Char), ts ≠ [] →
    (∀ t ∈ ts, wfToken t = true) →
    (rest0 = [] ∨ ∃ tl, rest0 = ':' :: tl) →
    (ts.length ≤ left →
      decode_hex_loop left (joinComma ts ++ rest0) rc
        = .ok (rc ++ ts.map tokVal) rest0) ∧
    (left < ts.length →
      decode_hex_loop left (joinComma ts ++ rest0) rc = .fatal) := by
  intro ts
  induction ts with
  | nil =>
    intro left rc rest0 hne
    exact absurd rfl hne
  | cons t ts' ih =>
    intro left rc rest0 _ hwf hrest
    have hwt : wfToken t = true := hwf t (List.mem_cons_self ..)
    have hrest' : rest0 = [] ∨ rest0.headD ' ' = ',' ∨ rest0.headD ' ' = ':' := by
      rcases hrest with rfl | ⟨tl, rfl⟩
      · exact .inl rfl
      · exact .inr (.inr rfl)
    cases ts' with
    | nil =>
      constructor
      · intro hle
        match left, hle with
        | left2 + 1, _ =>
          rw [show joinComma [t] = t from rfl, decode_hex_loop,
            decode_hex_value_wf t rest0 hwt hrest']
          rcases hrest with rfl | ⟨tl, rfl⟩
          · rfl
          · rfl
      · intro hlt
        match left, hlt with
        | 0, _ => rfl
    | cons t2 ts2 =>
      have hsplit : joinComma (t :: t2 :: ts2) ++ rest0
          = t ++ (',' :: (joinComma (t2 :: ts2) ++ rest0)) := by
        rw [joinComma_cons2, List.append_assoc, List.cons_append]
      have hwf' : ∀ t' ∈ t2 :: ts2, wfToken t' = true :=
        fun t' ht' => hwf t' (List.mem_cons_of_mem _ ht')
      constructor
      · intro hle
        match left, hle with
        | left2 + 1, hle =>
          rw [hsplit, decode_hex_loop,
            decode_hex_value_wf t (',' :: (joinComma (t2 :: ts2) ++ rest0)) hwt
              (.inr (.inl rfl))]
          dsimp only
          rw [if_neg (by decide), if_pos rfl]
          rw [(ih left2 (rc ++ [tokVal t]) rest0 (by simp) hwf' hrest).1
            (by simp only [List.length_cons] at hle ⊢; omega)]
          simp [List.append_assoc]
      · intro hlt
        cases left with
        | zero => rfl
        | succ left2 =>
          rw [hsplit, decode_hex_loop,
            decode_hex_value_wf t (',' :: (joinComma (t2 :: ts2) ++ rest0)) hwt
              (.inr (.inl rfl))]
          dsimp only
          rw [if_neg (by decide), if_pos rfl]
          exact (ih left2 (rc ++ [tokVal t]) rest0 (by simp) hwf' hrest).2
            (by simp only [List.length_cons] at hlt ⊢; omega)

/-! ### C8 -/

/-- C8: decoding a grammatically well-formed comma-separated token string
(each token `*` or optionally-`?`-prefixed lowercase hex digits, the
sequence followed by a `:` terminator or the end of the string) succeeds
with the denoted token values whenever at most 128 tokens appear, and
reaches the fatal configuration-abort path exactly when more than 128
tokens appear. -/
theorem decode_hex_string_token_bound (ts : List (List Char))
    (rest0 : List Char) (hne : ts ≠ [])
    (hwf : ∀ t ∈ ts, wfToken t = true)
    (hrest : rest0 = [] ∨ ∃ tl, rest0 = ':' :: tl) :
    (ts.length ≤ 128 →
      decode_hex_string (joinComma ts ++ rest0) = .ok (ts.map tokVal) rest0) ∧
    (128 < ts.length →
      decode_hex_string (joinComma ts ++ rest0) = .fatal) := by
  have h := decode_hex_loop_wf ts 128 [] rest0 hne hwf hrest
  rw [decode_hex_string]
  constructor
  · intro hle
    rw [h.1 hle, List.nil_append]
  · intro hgt
    exact h.2 hgt

/-- C8, witness: the two-token string `31,2:x` decodes to the two
token values with the remainder at the terminator. -/
theorem decode_hex_string_token_bound_witness :
    decode_hex_string ('3' :: '1' :: ',' :: '2' :: ':' :: 'x' :: [])
      = .ok [0x31, 0x2] (':' :: 'x' :: []) :=
  (decode_hex_string_token_bound [['3', '1'], ['2']] (':' :: 'x' :: [])
    (by decide) (by decide) (.inr ⟨['x'], rfl⟩)).1 (by decide)

/-! ### C9 -/

/-- C9: calling `process_ssl` on a flow whose classification state is
already decided (ConfirmedSSL, `in_ssl = 1`, or ConfirmedNotSSL,
`in_ssl = -1` — anything other than Undetermined, `in_ssl = 0`) returns 0
immediately, invokes neither dissector, emits no classification event, and
leaves the flow unchanged. -/
theorem process_ssl_decided_noop (db : List SslSigRecord) (to_srv : Bool)
    (f : PacketFlow) (h : f.in_ssl ≠ 0) :
    process_ssl db to_srv f = (0, f, []) := by
  rw [process_ssl, if_pos h]

/-- C9, witness: a flow already confirmed as SSL. -/
theorem process_ssl_decided_noop_witness :
    process_ssl [] true { in_ssl := 1, request := [0x16, 0x03], last_seen := 77 }
      = (0, { in_ssl := 1, request := [0x16, 0x03], last_seen := 77 }, []) :=
  process_ssl_decided_noop [] true _ (by decide)

/-! ### C10 -/

/-- C10: every invocation of the SSLv3 dissector by the engine passes a
fragment of length at least 4, so the dissector's unconditional 4-byte
handshake-header read (message type at offset 0, 24-bit length at offsets
1-3) is in bounds: the engine dispatches only when the declared fragment
length is strictly greater than 3 and that many bytes (after the 5-byte
record header) are buffered. -/
theorem process_ssl_v3_fragment_min_length (db : List SslSigRecord)
    (to_srv : Bool) (f : PacketFlow) (frag : List Nat) (rv lt : Nat)
    (h : SslEvent.dissectV3 frag rv lt ∈ (process_ssl db to_srv f).2.2) :
    4 ≤ frag.length := by
  simp only [process_ssl] at h
  repeat' split at h
  all_goals simp only [fingerprint_ssl] at h
  all_goals simp at h
  all_goals obtain ⟨h1, h2, h3⟩ := h
  all_goals subst h1
  all_goals simp only [List.length_take, List.length_drop]
  all_goals omega

/-- C10, witness: a buffered flow that the engine dispatches to the SSLv3
dissector (the dissection itself then fails on the truncated ClientHello,
which does not matter for the dispatch precondition). -/
theorem process_ssl_v3_fragment_min_length_witness :
    4 ≤ ([0x01, 0x00, 0x00, 0x00] : List Nat).length :=
  process_ssl_v3_fragment_min_length []
    true { in_ssl := 0,
           request := [0x16, 0x03, 0x01, 0x00, 0x04, 0x01, 0x00, 0x00, 0x00],
           last_seen := 0 }
    [0x01, 0x00, 0x00, 0x00] 0x0301 0 (by decide)

end FpSsl
